import Mathlib

/-!
Verification of the configuration resolution and validation pipeline of
vouch-proxy (`pkg/cfg/cfg.go`): claim-to-header sanitization, claim-map
construction, config validation (`basicTest`), legacy-key migration in
`parseConfig`, and the defaults overlay (`setDefaults`).

Go strings are modelled as lists of runes (`List Char`), matching what
`for _, r := range s` yields.  Logging calls in the source are side
effects with no influence on any returned value and are omitted; where a
claim is about an emitted warning, the warning is modelled as a returned
value.
-/

/-- Go strings, viewed as their sequence of runes. -/
abbrev GoStr := List Char

/-- Model of the `branding` struct (`cfg.go` lines 77-84). -/
structure branding where
  LCName : GoStr
  UCName : GoStr
  CcName : GoStr
  FullName : GoStr
  OldLCName : GoStr
  URL : GoStr

/-- Value of the `Branding` variable (`cfg.go` line 88). -/
def Branding : branding :=
  ⟨String.toList "vouch", String.toList "VOUCH", String.toList "Vouch",
   String.toList "Vouch Proxy", String.toList "lasso",
   String.toList "https://github.com/vouch/vouch-proxy"⟩

/-- Value of the `RequiredOptions` variable (`cfg.go` line 91). -/
def RequiredOptions : List GoStr :=
  [String.toList "oauth.provider", String.toList "oauth.client_id"]

/-- Characters removed from claims by the first replacement loop of
`claimToHeader` (`cfg.go` line 381): the 19 characters of the Go string
literal, including both curly braces. -/
def disallowedChars : List Char :=
  ['\"', '(', ')', ',', '/', '\\', ':', ';', '<', '=', '>', '?', '@',
   '[', ']', Char.ofNat 123, Char.ofNat 125, '_', '.']

/-- One `strings.ReplaceAll(claim, string(r), "-")` call for a
single-character pattern (`cfg.go` line 382). -/
def replaceAllHyphen (s : GoStr) (old : Char) : GoStr :=
  s.map (fun c => if c = old then '-' else c)

/-- Loop over the disallowed characters (`cfg.go` lines 381-383). -/
def disallowedPass (s : GoStr) : GoStr :=
  List.foldl replaceAllHyphen s disallowedChars

/-- Test from `cfg.go` line 391: the rune is outside printable ASCII. -/
def offending (c : Char) : Bool :=
  c.toNat < 33 || 126 < c.toNat

/-- Go `strings.Replace(s, string(r), "-", 1)` (`cfg.go` line 393):
replace only the first occurrence. -/
def replaceFirst : GoStr → Char → GoStr
  | [], _ => []
  | c :: cs, r => if c = r then '-' :: cs else c :: replaceFirst cs r

/-- Body of the loop at `cfg.go` lines 389-395: replace the first
occurrence of the rune `r` in the working copy when `r` is outside
printable ASCII. -/
def nonPrintStep (cur : GoStr) (r : Char) : GoStr :=
  if offending r then replaceFirst cur r else cur

/-- Loop of `cfg.go` lines 389-395.  Go's `range` iterates over the runes
of the string as it stood when the loop started, while the replacements
mutate the working copy, so the snapshot is both the fold's list and its
initial accumulator. -/
def nonPrintPass (s : GoStr) : GoStr :=
  List.foldl nonPrintStep s s

/-- Token characters valid in an HTTP header field name beyond ASCII
letters and digits (Go `net/textproto`, RFC 7230 `tchar`): exclamation
mark, hash, dollar, percent, ampersand, apostrophe, asterisk, plus,
hyphen, dot, caret, underscore, backtick, pipe, tilde. -/
def headerSpecials : List Char :=
  ['!', '#', '$', '%', '&', Char.ofNat 39, '*', '+', '-', '.', '^', '_',
   Char.ofNat 96, '|', '~']

/-- Go `net/textproto` `validHeaderFieldByte`.  A rune above 127 encodes
to bytes above 127, all invalid, so the byte-level and rune-level checks
agree. -/
def validHeaderFieldByte (c : Char) : Bool :=
  decide (48 ≤ c.toNat ∧ c.toNat ≤ 57) ||
  decide (65 ≤ c.toNat ∧ c.toNat ≤ 90) ||
  decide (97 ≤ c.toNat ∧ c.toNat ≤ 122) ||
  headerSpecials.contains c

/-- ASCII lower-case letter test (Go `'a' <= c && c <= 'z'`). -/
def isLowerA (c : Char) : Bool := decide (97 ≤ c.toNat ∧ c.toNat ≤ 122)

/-- ASCII upper-case letter test (Go `'A' <= c && c <= 'Z'`). -/
def isUpperA (c : Char) : Bool := decide (65 ≤ c.toNat ∧ c.toNat ≤ 90)

/-- Go `c -= 'a' - 'A'` applied to an ASCII lower-case letter. -/
def toUpperA (c : Char) : Char := Char.ofNat (c.toNat - 32)

/-- Go `c += 'a' - 'A'` applied to an ASCII upper-case letter. -/
def toLowerA (c : Char) : Char := Char.ofNat (c.toNat + 32)

/-- Case-normalisation loop of Go `textproto.canonicalMIMEHeaderKey`:
upper-case a letter at the start or after a hyphen, lower-case it
elsewhere, tracking the `upper` flag across the traversal. -/
def titleLoop : Bool → GoStr → GoStr
  | _, [] => []
  | upper, c :: cs =>
    let c2 := if upper && isLowerA c then toUpperA c
              else if !upper && isUpperA c then toLowerA c
              else c
    c2 :: titleLoop (c2 == '-') cs

/-- Go `http.CanonicalHeaderKey` alias `textproto.CanonicalMIMEHeaderKey`:
when every character is a valid header-name byte the key is title-cased,
otherwise it is returned unchanged. -/
def canonicalMIMEHeaderKey (s : GoStr) : GoStr :=
  if s.all validHeaderFieldByte then titleLoop true s else s

/-- Go `strings.TrimPrefix` as used at `cfg.go` lines 373-374. -/
def trimLeading (p s : GoStr) : GoStr :=
  if p.isPrefixOf s then s.drop p.length else s

/-- Embedding of `claimToHeader` (`cfg.go` lines 369-404).  The first
component is the returned header, the second the returned `error`, which
is `nil` at the single return site of the source.  The configured value
`Cfg.Headers.ClaimHeader` is passed explicitly as `claimHeader`. -/
def claimToHeader (claimHeader claim : GoStr) : GoStr × Option GoStr :=
  let c1 := trimLeading (String.toList "http://") claim
  let c2 := trimLeading (String.toList "https://") c1
  let c3 := disallowedPass c2
  let c4 := nonPrintPass c3
  (claimHeader ++ canonicalMIMEHeaderKey c4, none)

/-- Go map assignment `m[k] = v`: overwrite the entry for `k` when
present, otherwise add a new entry. -/
def mapSet (m : List (GoStr × GoStr)) (k v : GoStr) : List (GoStr × GoStr) :=
  match m with
  | [] => [(k, v)]
  | (k2, v2) :: rest => if k2 = k then (k, v) :: rest else (k2, v2) :: mapSet rest k v

/-- Go map read `m[k]`. -/
def mapGet (m : List (GoStr × GoStr)) (k : GoStr) : Option GoStr :=
  match m with
  | [] => none
  | (k2, v2) :: rest => if k2 = k then some v2 else mapGet rest k

/-- Loop of `cleanClaimsHeaders` (`cfg.go` lines 410-417), carrying the
map built so far and propagating any error from `claimToHeader`. -/
def cleanClaimsLoop (claimHeader : GoStr) :
    List GoStr → List (GoStr × GoStr) → Except GoStr (List (GoStr × GoStr))
  | [], m => .ok m
  | claim :: rest, m =>
    match claimToHeader claimHeader claim with
    | (_, some e) => .error e
    | (header, none) => cleanClaimsLoop claimHeader rest (mapSet m claim header)

/-- Embedding of `cleanClaimsHeaders` (`cfg.go` lines 409-420): builds the
`Headers.ClaimsCleaned` map, keyed by the raw claim. -/
def cleanClaimsHeaders (claimHeader : GoStr) (claims : List GoStr) :
    Except GoStr (List (GoStr × GoStr)) :=
  cleanClaimsLoop claimHeader claims []

/-- Model of the anonymous `JWT` struct inside `Config` (`cfg.go` lines
40-45). -/
structure JWTConfig where
  MaxAge : Int
  Issuer : GoStr
  Secret : GoStr
  Compress : Bool
deriving DecidableEq

/-- Model of the anonymous `Cookie` struct inside `Config` (`cfg.go`
lines 46-53). -/
structure CookieConfig where
  Name : GoStr
  Domain : GoStr
  Secure : Bool
  HTTPOnly : Bool
  MaxAge : Int
  SameSite : GoStr
deriving DecidableEq

/-- Model of the anonymous `Headers` struct inside `Config` (`cfg.go`
lines 55-66). -/
structure HeadersConfig where
  JWT : GoStr
  User : GoStr
  QueryString : GoStr
  Redirect : GoStr
  Success : GoStr
  ClaimHeader : GoStr
  Claims : List GoStr
  AccessToken : GoStr
  IDToken : GoStr
  ClaimsCleaned : List (GoStr × GoStr)
deriving DecidableEq

/-- Model of the anonymous `Session` struct inside `Config` (`cfg.go`
lines 67-70). -/
structure SessionConfig where
  Name : GoStr
  Key : GoStr
deriving DecidableEq

/-- Model of the `Config` struct (`cfg.go` lines 31-75). -/
structure Config where
  LogLevel : GoStr
  Listen : GoStr
  Port : Int
  Domains : List GoStr
  WhiteList : List GoStr
  TeamWhiteList : List GoStr
  AllowAllUsers : Bool
  PublicAccess : Bool
  JWT : JWTConfig
  Cookie : CookieConfig
  Headers : HeadersConfig
  Session : SessionConfig
  TestURL : GoStr
  TestURLs : List GoStr
  Testing : Bool
  LogoutRedirectURLs : List GoStr
deriving DecidableEq

/-- Go zero value of `Config`, as produced by `&Config{}`. -/
def zeroConfig : Config :=
  ⟨[], [], 0, [], [], [], false, false,
   ⟨0, [], [], false⟩,
   ⟨[], [], false, false, 0, []⟩,
   ⟨[], [], [], [], [], [], [], [], [], []⟩,
   ⟨[], []⟩,
   [], [], false, []⟩

/-- Errors `basicTest` can return, one constructor per `return` site
(`cfg.go` lines 305-348), carrying the data interpolated into the Go
error message. -/
inductive CfgError where
  | oauth (e : GoStr)
  | requiredMissing (opt : GoStr)
  | domainsOrAllowAllUnset
  | cookieMaxAgeNegative (v : Int)
  | jwtMaxAgeNonPositive (v : Int)
  | cookieMaxAgeExceedsJWT (cookieAge jwtAge : Int)
deriving DecidableEq

/-- Key `vouch.allowAllUsers` probed by `viper.IsSet` (`cfg.go` line 318). -/
def allowAllUsersKey : GoStr := Branding.LCName ++ String.toList ".allowAllUsers"

/-- Key `vouch.domains` probed by `viper.IsSet` (`cfg.go` line 318). -/
def domainsKey : GoStr := Branding.LCName ++ String.toList ".domains"

/-- Embedding of `basicTest` (`cfg.go` lines 305-348).  The result of the
external `oauthBasicTest` call and the `viper.IsSet` view of the raw
document are passed as parameters; the too-short secret and session-key
checks only log and are omitted; `none` is the `nil` return. -/
def basicTest (oauthErr : Option GoStr) (isSet : GoStr → Bool) (cfg : Config) :
    Option CfgError :=
  match oauthErr with
  | some e => some (CfgError.oauth e)
  | none =>
    match RequiredOptions.find? (fun opt => !isSet opt) with
    | some opt => some (CfgError.requiredMissing opt)
    | none =>
      if !isSet allowAllUsersKey && !isSet domainsKey then
        some CfgError.domainsOrAllowAllUnset
      else if cfg.Cookie.MaxAge < 0 then
        some (CfgError.cookieMaxAgeNegative cfg.Cookie.MaxAge)
      else if cfg.JWT.MaxAge ≤ 0 then
        some (CfgError.jwtMaxAgeNonPositive cfg.JWT.MaxAge)
      else if cfg.JWT.MaxAge < cfg.Cookie.MaxAge then
        some (CfgError.cookieMaxAgeExceedsJWT cfg.Cookie.MaxAge cfg.JWT.MaxAge)
      else
        none

/-- Legacy-key migration step of `parseConfig` (`cfg.go` lines 255-271),
with the two decoded candidates passed as parameters: `primary` is `Cfg`
after `UnmarshalKey("vouch", ...)` and `legacy` is `oldConfig` after
`UnmarshalKey("lasso", ...)`.  The second component models the
`log.Errorf` migration warning, carrying the two key names it
interpolates. -/
def parseConfigMigrate (primary legacy : Config) : Config × Option (GoStr × GoStr) :=
  if primary.Domains.length = 0 then
    if legacy.Domains.length ≠ 0 then
      (legacy, some (Branding.OldLCName, Branding.LCName))
    else (primary, none)
  else (primary, none)

/-- Modelled from the spec: the merge behaviour for one field of the
defaults-overlay decode (`viper.UnmarshalKey` into the already-populated
`Cfg` at `cfg.go` line 357; the decoder itself is library code not under
`src/`).  Per the spec, a field already set to a non-zero value by the
primary stage is left untouched, and a field is set from the defaults
document only when the primary stage left it at its zero value and the
defaults document defines that key. -/
def overlayField {α : Type} [DecidableEq α] (prim zero : α) (d : Option α) : α :=
  if prim = zero then
    match d with
    | some v => v
    | none => prim
  else prim

/-- Modelled from the spec: the `.defaults.yml` document, with one
optional entry per decodable (`mapstructure`-tagged) leaf field of
`Config`; `none` means the key is not defined in the document. -/
structure DefaultsDoc where
  logLevel : Option GoStr
  listen : Option GoStr
  port : Option Int
  domains : Option (List GoStr)
  whitelist : Option (List GoStr)
  teamWhitelist : Option (List GoStr)
  allowAllUsers : Option Bool
  publicAccess : Option Bool
  jwtMaxAge : Option Int
  jwtIssuer : Option GoStr
  jwtSecret : Option GoStr
  jwtCompress : Option Bool
  cookieName : Option GoStr
  cookieDomain : Option GoStr
  cookieSecure : Option Bool
  cookieHTTPOnly : Option Bool
  cookieMaxAge : Option Int
  cookieSameSite : Option GoStr
  headersJWT : Option GoStr
  headersUser : Option GoStr
  headersQueryString : Option GoStr
  headersRedirect : Option GoStr
  headersSuccess : Option GoStr
  headersClaimHeader : Option GoStr
  headersClaims : Option (List GoStr)
  headersAccessToken : Option GoStr
  headersIDToken : Option GoStr
  sessionName : Option GoStr
  sessionKey : Option GoStr
  testURL : Option GoStr
  testURLs : Option (List GoStr)
  testing : Option Bool
  logoutRedirectURLs : Option (List GoStr)
deriving DecidableEq

/-- Modelled from the spec: the defaults-overlay stage `setDefaults`
(`cfg.go` lines 351-367).  It decodes the defaults document into the
already-populated configuration, applying the spec's merge contract
(`overlayField`) to every decodable leaf field; `ClaimsCleaned` has no
`mapstructure` tag and is never decoded. -/
def setDefaults (cfg : Config) (doc : DefaultsDoc) : Config :=
  { LogLevel := overlayField cfg.LogLevel [] doc.logLevel
    Listen := overlayField cfg.Listen [] doc.listen
    Port := overlayField cfg.Port 0 doc.port
    Domains := overlayField cfg.Domains [] doc.domains
    WhiteList := overlayField cfg.WhiteList [] doc.whitelist
    TeamWhiteList := overlayField cfg.TeamWhiteList [] doc.teamWhitelist
    AllowAllUsers := overlayField cfg.AllowAllUsers false doc.allowAllUsers
    PublicAccess := overlayField cfg.PublicAccess false doc.publicAccess
    JWT :=
      { MaxAge := overlayField cfg.JWT.MaxAge 0 doc.jwtMaxAge
        Issuer := overlayField cfg.JWT.Issuer [] doc.jwtIssuer
        Secret := overlayField cfg.JWT.Secret [] doc.jwtSecret
        Compress := overlayField cfg.JWT.Compress false doc.jwtCompress }
    Cookie :=
      { Name := overlayField cfg.Cookie.Name [] doc.cookieName
        Domain := overlayField cfg.Cookie.Domain [] doc.cookieDomain
        Secure := overlayField cfg.Cookie.Secure false doc.cookieSecure
        HTTPOnly := overlayField cfg.Cookie.HTTPOnly false doc.cookieHTTPOnly
        MaxAge := overlayField cfg.Cookie.MaxAge 0 doc.cookieMaxAge
        SameSite := overlayField cfg.Cookie.SameSite [] doc.cookieSameSite }
    Headers :=
      { JWT := overlayField cfg.Headers.JWT [] doc.headersJWT
        User := overlayField cfg.Headers.User [] doc.headersUser
        QueryString := overlayField cfg.Headers.QueryString [] doc.headersQueryString
        Redirect := overlayField cfg.Headers.Redirect [] doc.headersRedirect
        Success := overlayField cfg.Headers.Success [] doc.headersSuccess
        ClaimHeader := overlayField cfg.Headers.ClaimHeader [] doc.headersClaimHeader
        Claims := overlayField cfg.Headers.Claims [] doc.headersClaims
        AccessToken := overlayField cfg.Headers.AccessToken [] doc.headersAccessToken
        IDToken := overlayField cfg.Headers.IDToken [] doc.headersIDToken
        ClaimsCleaned := cfg.Headers.ClaimsCleaned }
    Session :=
      { Name := overlayField cfg.Session.Name [] doc.sessionName
        Key := overlayField cfg.Session.Key [] doc.sessionKey }
    TestURL := overlayField cfg.TestURL [] doc.testURL
    TestURLs := overlayField cfg.TestURLs [] doc.testURLs
    Testing := overlayField cfg.Testing false doc.testing
    LogoutRedirectURLs := overlayField cfg.LogoutRedirectURLs [] doc.logoutRedirectURLs }

/-- Defaults document in which no key is defined. -/
def emptyDefaultsDoc : DefaultsDoc :=
  ⟨none, none, none, none, none, none, none, none, none, none, none,
   none, none, none, none, none, none, none, none, none, none, none,
   none, none, none, none, none, none, none, none, none, none, none⟩

/-- Specification-side single pass for the refinement claim about the
non-printable loop: replace every occurrence of every character outside
printable ASCII with a hyphen. -/
def cleanChar (c : Char) : Char := if offending c then '-' else c

/-- Specification-side single pass over the whole string. -/
def replaceEveryOffending (s : GoStr) : GoStr := s.map cleanChar

/-- Character class named by the spec's sanitizer property: an English
letter, a digit, or a hyphen. -/
def letterDigitHyphen (c : Char) : Bool :=
  decide (65 ≤ c.toNat ∧ c.toNat ≤ 90) ||
  decide (97 ≤ c.toNat ∧ c.toNat ≤ 122) ||
  decide (48 ≤ c.toNat ∧ c.toNat ≤ 57) ||
  c == '-'

/-- Character class that actually survives the sanitizer: printable ASCII
outside the disallowed set. -/
def printableAllowed (c : Char) : Prop :=
  33 ≤ c.toNat ∧ c.toNat ≤ 126 ∧ c ∉ disallowedChars

instance (c : Char) : Decidable (printableAllowed c) := by
  unfold printableAllowed
  infer_instance

/-- Helper map keyed by raw claim that `cleanClaimsLoop` computes, used to
state its properties. -/
def claimsFold (claimHeader : GoStr) (claims : List GoStr) : List (GoStr × GoStr) :=
  List.foldl (fun acc claim => mapSet acc claim (claimToHeader claimHeader claim).1) [] claims

/-- Keys of a modelled Go map. -/
def mapKeys (m : List (GoStr × GoStr)) : List GoStr := m.map Prod.fst

/-- Primary-stage configuration that sets only the cookie name, used to
instantiate the defaults-overlay example. -/
def primaryCookieOnly : Config :=
  { zeroConfig with Cookie := { zeroConfig.Cookie with Name := String.toList "mycookie" } }

/-- Defaults document defining both the cookie name and the cookie
max-age, used to instantiate the defaults-overlay example. -/
def defaultsCookieDoc : DefaultsDoc :=
  { emptyDefaultsDoc with
      cookieName := some (String.toList "defaultcookie")
      cookieMaxAge := some 240 }

/-- Legacy-sourced candidate configuration with a non-empty domain list,
used to instantiate the migration example. -/
def legacyDomainsConfig : Config :=
  { zeroConfig with Domains := [String.toList "example.com"] }

/-- Configuration whose cookie max-age exceeds its JWT max-age, used to
instantiate the validator example. -/
def cookieTooLargeConfig : Config :=
  { zeroConfig with
      Cookie := { zeroConfig.Cookie with MaxAge := 100 }
      JWT := { zeroConfig.JWT with MaxAge := 50 } }

lemma toNat_charOfNat (n : Nat) (h : n < 55296) : (Char.ofNat n).toNat = n := by
  unfold Char.ofNat
  rw [dif_pos (Or.inl h)]
  rfl

lemma offending_cleanChar (c : Char) : offending (cleanChar c) = false := by
  unfold cleanChar
  split
  · decide
  · simp_all

lemma not_mem_map_cleanChar {c : Char} (h : offending c = true) (l : GoStr) :
    c ∉ List.map cleanChar l := by
  intro hm
  rcases List.mem_map.mp hm with ⟨x, _, hcx⟩
  rw [← hcx, offending_cleanChar x] at h
  exact Bool.false_ne_true h

lemma replaceFirst_append (xs ys : GoStr) (r : Char) (h : r ∉ xs) :
    replaceFirst (xs ++ r :: ys) r = xs ++ '-' :: ys := by
  induction xs with
  | nil => simp [replaceFirst]
  | cons x xs ih =>
    have hxr : x ≠ r := fun he => h (he ▸ List.mem_cons_self x xs)
    simp only [List.cons_append, replaceFirst, if_neg hxr, List.append_eq]
    rw [ih (fun hm => h (List.mem_cons_of_mem x hm))]

lemma nonPrint_loop_general :
    ∀ (suf pre : GoStr),
      List.foldl nonPrintStep (List.map cleanChar pre ++ suf) suf
        = List.map cleanChar pre ++ List.map cleanChar suf := by
  intro suf
  induction suf with
  | nil => intro pre; simp
  | cons r rest ih =>
    intro pre
    rw [List.foldl_cons]
    by_cases h : offending r = true
    · have hcr : cleanChar r = '-' := by simp [cleanChar, h]
      have hstep : nonPrintStep (List.map cleanChar pre ++ r :: rest) r
          = List.map cleanChar pre ++ '-' :: rest := by
        unfold nonPrintStep
        rw [if_pos h, replaceFirst_append _ _ _ (not_mem_map_cleanChar h pre)]
      rw [hstep]
      have hsplit : List.map cleanChar pre ++ '-' :: rest
          = List.map cleanChar (pre ++ [r]) ++ rest := by
        simp [hcr]
      rw [hsplit, ih (pre ++ [r])]
      simp [hcr]
    · have hb : offending r = false := by simp_all
      have hcr : cleanChar r = r := by simp [cleanChar, hb]
      have hstep : nonPrintStep (List.map cleanChar pre ++ r :: rest) r
          = List.map cleanChar pre ++ r :: rest := by
        unfold nonPrintStep
        rw [if_neg h]
      rw [hstep]
      have hsplit : List.map cleanChar pre ++ r :: rest
          = List.map cleanChar (pre ++ [r]) ++ rest := by
        simp [hcr]
      rw [hsplit, ih (pre ++ [r])]
      simp [hcr]

lemma nonPrintPass_eq_single (s : GoStr) : nonPrintPass s = replaceEveryOffending s := by
  have h := nonPrint_loop_general s []
  simpa [nonPrintPass, replaceEveryOffending] using h

lemma foldl_replaceAllHyphen (ds : List Char) :
    ∀ s : GoStr, List.foldl replaceAllHyphen s ds
      = s.map (fun c => List.foldl (fun a d => if a = d then '-' else a) c ds) := by
  induction ds with
  | nil => intro s; simp
  | cons d ds ih =>
    intro s
    rw [List.foldl_cons, ih]
    simp only [replaceAllHyphen, List.map_map, List.foldl_cons]
    rfl

lemma foldl_hyphen_char (ds : List Char) : ∀ c : Char,
    List.foldl (fun a d => if a = d then '-' else a) c ds
      = if c ∈ ds then '-' else c := by
  induction ds with
  | nil => intro c; simp
  | cons d ds ih =>
    intro c
    rw [List.foldl_cons]
    by_cases h : c = d
    · subst h
      rw [if_pos rfl, ih]
      simp
    · rw [if_neg h, ih]
      simp [List.mem_cons, h]

lemma disallowedPass_eq_map (s : GoStr) :
    disallowedPass s = s.map (fun c => if c ∈ disallowedChars then '-' else c) := by
  unfold disallowedPass
  rw [foldl_replaceAllHyphen]
  exact List.map_congr_left (fun c _ => foldl_hyphen_char disallowedChars c)

lemma disallowed_not_letter : ∀ c ∈ disallowedChars,
    ¬(65 ≤ c.toNat ∧ c.toNat ≤ 90) ∧ ¬(97 ≤ c.toNat ∧ c.toNat ≤ 122) := by
  intro c hc
  fin_cases hc <;> exact ⟨by decide, by decide⟩

lemma letter_not_disallowed {c : Char}
    (h : (65 ≤ c.toNat ∧ c.toNat ≤ 90) ∨ (97 ≤ c.toNat ∧ c.toNat ≤ 122)) :
    c ∉ disallowedChars := by
  intro hc
  rcases disallowed_not_letter c hc with ⟨h1, h2⟩
  tauto

lemma printableAllowed_toUpperA {c : Char} (h : isLowerA c = true) :
    printableAllowed (toUpperA c) := by
  have hb : 97 ≤ c.toNat ∧ c.toNat ≤ 122 := of_decide_eq_true h
  have ht : (toUpperA c).toNat = c.toNat - 32 := by
    unfold toUpperA
    exact toNat_charOfNat _ (by omega)
  refine ⟨by omega, by omega, letter_not_disallowed (Or.inl ⟨by omega, by omega⟩)⟩

lemma printableAllowed_toLowerA {c : Char} (h : isUpperA c = true) :
    printableAllowed (toLowerA c) := by
  have hb : 65 ≤ c.toNat ∧ c.toNat ≤ 90 := of_decide_eq_true h
  have ht : (toLowerA c).toNat = c.toNat + 32 := by
    unfold toLowerA
    exact toNat_charOfNat _ (by omega)
  refine ⟨by omega, by omega, letter_not_disallowed (Or.inr ⟨by omega, by omega⟩)⟩

lemma printableAllowed_titleMap (u : Bool) (a : Char) (h : printableAllowed a) :
    printableAllowed (if u && isLowerA a then toUpperA a
      else if !u && isUpperA a then toLowerA a else a) := by
  by_cases h1 : (u && isLowerA a) = true
  · rw [if_pos h1]
    exact printableAllowed_toUpperA (Bool.and_elim_right h1)
  · rw [if_neg h1]
    by_cases h2 : (!u && isUpperA a) = true
    · rw [if_pos h2]
      exact printableAllowed_toLowerA (Bool.and_elim_right h2)
    · rw [if_neg h2]
      exact h

lemma titleLoop_printable : ∀ (s : GoStr) (u : Bool),
    (∀ x ∈ s, printableAllowed x) → ∀ c ∈ titleLoop u s, printableAllowed c := by
  intro s
  induction s with
  | nil => intro u _ c hc; simp [titleLoop] at hc
  | cons a s ih =>
    intro u hall c hc
    simp only [titleLoop] at hc
    rcases List.mem_cons.mp hc with hhead | htail
    · rw [hhead]
      exact printableAllowed_titleMap u a (hall a (List.mem_cons_self a s))
    · exact ih _ (fun x hx => hall x (List.mem_cons_of_mem a hx)) c htail

lemma canonical_printable (s : GoStr) (h : ∀ c ∈ s, printableAllowed c) :
    ∀ c ∈ canonicalMIMEHeaderKey s, printableAllowed c := by
  unfold canonicalMIMEHeaderKey
  split
  · exact titleLoop_printable s true h
  · exact h

lemma sanitizedBody_printable (s : GoStr) :
    ∀ c ∈ nonPrintPass (disallowedPass s), printableAllowed c := by
  intro c hc
  rw [nonPrintPass_eq_single, disallowedPass_eq_map, replaceEveryOffending,
    List.map_map] at hc
  rcases List.mem_map.mp hc with ⟨x, _, hcx⟩
  rw [← hcx]
  by_cases hx : x ∈ disallowedChars
  · simp only [Function.comp, if_pos hx]
    have : cleanChar '-' = '-' := by decide
    rw [this]
    decide
  · simp only [Function.comp, if_neg hx]
    by_cases ho : offending x = true
    · have : cleanChar x = '-' := by simp [cleanChar, ho]
      rw [this]
      decide
    · have hb : offending x = false := by simp_all
      have : cleanChar x = x := by simp [cleanChar, hb]
      rw [this]
      have hr : ¬(x.toNat < 33 || 126 < x.toNat) = true := by
        rw [offending] at hb
        simp [hb]
      simp only [Bool.or_eq_true, decide_eq_true_eq, not_or] at hr
      exact ⟨by omega, by omega, hx⟩

lemma mapGet_mapSet_self (m : List (GoStr × GoStr)) (k v : GoStr) :
    mapGet (mapSet m k v) k = some v := by
  induction m with
  | nil => simp [mapSet, mapGet]
  | cons e rest ih =>
    obtain ⟨k2, v2⟩ := e
    by_cases h : k2 = k
    · simp [mapSet, mapGet, h]
    · simp [mapSet, mapGet, h, ih]

lemma mapGet_mapSet_ne (m : List (GoStr × GoStr)) {k k2 : GoStr}
    (h : k2 ≠ k) (v : GoStr) : mapGet (mapSet m k v) k2 = mapGet m k2 := by
  have hsym : k ≠ k2 := Ne.symm h
  induction m with
  | nil => simp [mapSet, mapGet, hsym]
  | cons e rest ih =>
    obtain ⟨k3, v3⟩ := e
    by_cases h3 : k3 = k
    · subst h3
      simp [mapSet, mapGet, hsym]
    · simp only [mapSet, if_neg h3]
      by_cases h4 : k3 = k2
      · simp [mapGet, h4]
      · simp [mapGet, h4, ih]

lemma mapKeys_mapSet (m : List (GoStr × GoStr)) (k v : GoStr) :
    mapKeys (mapSet m k v) = if k ∈ mapKeys m then mapKeys m else mapKeys m ++ [k] := by
  induction m with
  | nil => simp [mapSet, mapKeys]
  | cons e rest ih =>
    obtain ⟨k2, v2⟩ := e
    by_cases h : k2 = k
    · subst h
      simp [mapSet, mapKeys]
    · have hk2 : k ≠ k2 := Ne.symm h
      simp only [mapSet, if_neg h, mapKeys, List.map_cons] at ih ⊢
      rw [ih]
      have hiff : (k ∈ k2 :: List.map Prod.fst rest) ↔ (k ∈ List.map Prod.fst rest) := by
        rw [List.mem_cons]
        exact or_iff_right hk2
      by_cases hm : k ∈ List.map Prod.fst rest
      · simp [hm, hiff.mpr hm]
      · rw [if_neg hm, if_neg (fun hc => hm (hiff.mp hc))]
        simp

lemma nodup_mapKeys_mapSet (m : List (GoStr × GoStr)) (k v : GoStr)
    (h : (mapKeys m).Nodup) : (mapKeys (mapSet m k v)).Nodup := by
  rw [mapKeys_mapSet]
  split
  · exact h
  · rename_i hnm
    simp [List.nodup_append, h, hnm]

lemma mem_mapSet {m : List (GoStr × GoStr)} {k v : GoStr} {e : GoStr × GoStr}
    (h : e ∈ mapSet m k v) : e = (k, v) ∨ e ∈ m := by
  induction m with
  | nil => simpa [mapSet] using h
  | cons e2 rest ih =>
    obtain ⟨k2, v2⟩ := e2
    by_cases h2 : k2 = k
    · rw [mapSet, if_pos h2] at h
      rcases List.mem_cons.mp h with h3 | h3
      · exact Or.inl h3
      · exact Or.inr (List.mem_cons_of_mem _ h3)
    · rw [mapSet, if_neg h2] at h
      rcases List.mem_cons.mp h with h3 | h3
      · exact Or.inr (h3 ▸ List.mem_cons_self _ _)
      · rcases ih h3 with h4 | h4
        · exact Or.inl h4
        · exact Or.inr (List.mem_cons_of_mem _ h4)

lemma cleanClaimsLoop_ok (p : GoStr) :
    ∀ (claims : List GoStr) (m : List (GoStr × GoStr)),
      cleanClaimsLoop p claims m
        = Except.ok (List.foldl (fun acc claim => mapSet acc claim (claimToHeader p claim).1) m claims) := by
  intro claims
  induction claims with
  | nil => intro m; rfl
  | cons c cs ih =>
    intro m
    rw [List.foldl_cons, ← ih]
    rfl

lemma mapGet_claimsFoldFrom (p : GoStr) :
    ∀ (claims : List GoStr) (m : List (GoStr × GoStr)) (k : GoStr),
      mapGet (List.foldl (fun acc claim => mapSet acc claim (claimToHeader p claim).1) m claims) k
        = if k ∈ claims then some (claimToHeader p k).1 else mapGet m k := by
  intro claims
  induction claims with
  | nil => intro m k; simp
  | cons c cs ih =>
    intro m k
    rw [List.foldl_cons, ih]
    by_cases hk : k ∈ cs
    · simp [hk, List.mem_cons]
    · by_cases hkc : k = c
      · subst hkc
        simp [hk, mapGet_mapSet_self]
      · simp [hk, hkc, mapGet_mapSet_ne _ hkc]

lemma nodup_claimsFoldFrom (p : GoStr) :
    ∀ (claims : List GoStr) (m : List (GoStr × GoStr)),
      (mapKeys m).Nodup →
      (mapKeys (List.foldl (fun acc claim => mapSet acc claim (claimToHeader p claim).1) m claims)).Nodup := by
  intro claims
  induction claims with
  | nil => intro m h; simpa using h
  | cons c cs ih =>
    intro m h
    rw [List.foldl_cons]
    exact ih _ (nodup_mapKeys_mapSet _ _ _ h)

lemma mem_claimsFoldFrom (p : GoStr) :
    ∀ (claims : List GoStr) (m : List (GoStr × GoStr)) (e : GoStr × GoStr),
      e ∈ List.foldl (fun acc claim => mapSet acc claim (claimToHeader p claim).1) m claims →
      e ∈ m ∨ (e.1 ∈ claims ∧ e.2 = (claimToHeader p e.1).1) := by
  intro claims
  induction claims with
  | nil => intro m e h; exact Or.inl (by simpa using h)
  | cons c cs ih =>
    intro m e h
    rw [List.foldl_cons] at h
    rcases ih _ e h with h2 | h2
    · rcases mem_mapSet h2 with h3 | h3
      · subst h3
        exact Or.inr ⟨List.mem_cons_self _ _, rfl⟩
      · exact Or.inl h3
    · exact Or.inr ⟨List.mem_cons_of_mem _ h2.1, h2.2⟩

deriving instance DecidableEq for Except

/-- Claim C1 fails as stated: with an empty configured claim-header value
and raw claim `a!b`, the sanitized header is `A!b`, and its character `!`
after the configured claim-header value is neither an English letter,
nor a digit, nor a hyphen. -/
theorem claimToHeader_letterDigitHyphen_counterexample :
    ('!' ∈ ((claimToHeader [] (String.toList "a!b")).1).drop (List.length ([] : GoStr)))
    ∧ letterDigitHyphen '!' = false :=
  ⟨by decide, by decide⟩

/-- Claim C1 (amended): for every configured claim-header value and every
raw claim string, the header produced by `claimToHeader` contains, after
the configured claim-header value, only printable ASCII characters (code
points 33 to 126) outside the sanitizer's disallowed set — a class that
contains the English letters, digits and hyphens but also the remaining
printable characters such as the exclamation mark. -/
theorem claimToHeader_body_printableAllowed (p claim : GoStr) :
    ∀ c ∈ ((claimToHeader p claim).1).drop p.length, printableAllowed c := by
  intro c hc
  have hdrop : ((claimToHeader p claim).1).drop p.length
      = canonicalMIMEHeaderKey (nonPrintPass (disallowedPass
          (trimLeading (String.toList "https://")
            (trimLeading (String.toList "http://") claim)))) := by
    simp only [claimToHeader]
    exact List.drop_left p _
  rw [hdrop] at hc
  exact canonical_printable _ (sanitizedBody_printable _) c hc

/-- Witness for the amended claim C1 at a concrete input. -/
theorem claimToHeader_body_printableAllowed_witness :
    ('A' ∈ ((claimToHeader [] (String.toList "a")).1).drop (List.length ([] : GoStr)))
    ∧ printableAllowed 'A' :=
  ⟨by decide, claimToHeader_body_printableAllowed [] (String.toList "a") 'A' (by decide)⟩

/-- Claim C10: the non-printable-character pass of `claimToHeader`, which
ranges over the string as it stood after the disallowed-character
replacements while replacing only the first occurrence of each offending
rune in the mutated string, is equivalent to a single pass replacing
every occurrence of every character with code point below 33 or above
126 with a hyphen. -/
theorem nonPrintPass_refines_single_pass :
    ∀ s : GoStr, nonPrintPass s = replaceEveryOffending s :=
  nonPrintPass_eq_single

/-- Claim C7: on any string free of the disallowed characters and of
characters outside printable ASCII, re-applying steps 2 and 3 of the
sanitizer (the disallowed-character pass followed by the non-printable
pass) returns the string unchanged, while the full `claimToHeader`,
which prepends the configured claim-header value each time, is not
idempotent. -/
theorem sanitize_steps_idempotent_full_not :
    (∀ s : GoStr, (∀ c ∈ s, printableAllowed c) →
        nonPrintPass (disallowedPass s) = s)
    ∧ (claimToHeader (String.toList "x-")
          ((claimToHeader (String.toList "x-") (String.toList "roles")).1)).1
        ≠ (claimToHeader (String.toList "x-") (String.toList "roles")).1 := by
  constructor
  · intro s h
    have h1 : disallowedPass s = s := by
      rw [disallowedPass_eq_map]
      calc s.map (fun c => if c ∈ disallowedChars then '-' else c)
          = s.map id := List.map_congr_left (fun c hc => if_neg (h c hc).2.2)
        _ = s := List.map_id s
    rw [h1, nonPrintPass_eq_single, replaceEveryOffending]
    have h2 : ∀ c ∈ s, cleanChar c = c := by
      intro c hc
      have hb : offending c = false := by
        unfold offending
        simp only [Bool.or_eq_false_iff, decide_eq_false_iff_not, not_lt]
        exact ⟨(h c hc).1, (h c hc).2.1⟩
      simp [cleanChar, hb]
    calc s.map cleanChar
        = s.map id := List.map_congr_left h2
      _ = s := List.map_id s
  · decide

/-- Witness for the idempotence part of claim C7 at a concrete input. -/
theorem sanitize_steps_idempotent_witness :
    (∀ c ∈ String.toList "abc", printableAllowed c)
    ∧ nonPrintPass (disallowedPass (String.toList "abc")) = String.toList "abc" :=
  ⟨by decide, (sanitize_steps_idempotent_full_not).1 (String.toList "abc") (by decide)⟩

/-- Claim C8: sanitization never reports an error — `claimToHeader`
returns a `nil` error for every input, and `cleanClaimsHeaders` always
returns the derived map rather than an error. -/
theorem sanitization_never_errors :
    (∀ p claim : GoStr, (claimToHeader p claim).2 = none)
    ∧ (∀ (p : GoStr) (claims : List GoStr),
        cleanClaimsHeaders p claims = Except.ok (claimsFold p claims)) := by
  constructor
  · intro p claim
    rfl
  · intro p claims
    exact cleanClaimsLoop_ok p claims []

/-- Claim C9: the header built by `claimToHeader` is exactly the
configured claim-header value concatenated with the canonicalized
sanitized body; the configured value is prepended verbatim after the
body's canonicalization, so it is never itself sanitized, title-cased or
checked, and any disallowed characters in it appear unchanged. -/
theorem claimToHeader_prepends_verbatim (p claim : GoStr) :
    (claimToHeader p claim).1
      = p ++ canonicalMIMEHeaderKey (nonPrintPass (disallowedPass
          (trimLeading (String.toList "https://")
            (trimLeading (String.toList "http://") claim))))
    ∧ ((claimToHeader p claim).1).take p.length = p
    ∧ ((claimToHeader p claim).1).drop p.length
      = canonicalMIMEHeaderKey (nonPrintPass (disallowedPass
          (trimLeading (String.toList "https://")
            (trimLeading (String.toList "http://") claim)))) := by
  refine ⟨rfl, ?_, ?_⟩
  · exact List.take_left p _
  · exact List.drop_left p _

/-- Claim C3 fails as stated: the derived map is keyed by the raw claim,
so when the two distinct raw claims `a_b` and `a.b` normalize to the
same header name `A-B`, no entry is overwritten — both raw claims keep
their own independent entry for that header, and in particular the
earlier claim's entry survives the later claim's insertion. -/
theorem cleanClaimsHeaders_collision_counterexample :
    (claimToHeader [] (String.toList "a_b")).1 = (claimToHeader [] (String.toList "a.b")).1
    ∧ cleanClaimsHeaders [] [String.toList "a_b", String.toList "a.b"]
        = Except.ok [(String.toList "a_b", String.toList "A-B"),
                     (String.toList "a.b", String.toList "A-B")]
    ∧ mapGet (claimsFold [] [String.toList "a_b", String.toList "a.b"])
        (String.toList "a_b") = some (String.toList "A-B") :=
  ⟨by decide, by decide, by decide⟩

/-- Claim C3 (amended): the derived claim-to-header map has exactly one
entry per distinct raw claim in the list, keyed by the raw claim; the
header value of every entry is computed deterministically and
independently by `claimToHeader`; when the same raw claim occurs twice
the later, identical computation overwrites the earlier entry, while two
distinct raw claims that normalize to the same header name both keep
their own entries; no error is reported. -/
theorem cleanClaimsHeaders_amended (p : GoStr) (claims : List GoStr) :
    cleanClaimsHeaders p claims = Except.ok (claimsFold p claims)
    ∧ (∀ k, k ∈ claims → mapGet (claimsFold p claims) k = some (claimToHeader p k).1)
    ∧ (∀ e ∈ claimsFold p claims, e.1 ∈ claims ∧ e.2 = (claimToHeader p e.1).1)
    ∧ (mapKeys (claimsFold p claims)).Nodup := by
  refine ⟨cleanClaimsLoop_ok p claims [], ?_, ?_, ?_⟩
  · intro k hk
    rw [claimsFold, mapGet_claimsFoldFrom, if_pos hk]
  · intro e he
    rcases mem_claimsFoldFrom p claims [] e he with h | h
    · exact absurd h (List.not_mem_nil e)
    · exact h
  · exact nodup_claimsFoldFrom p claims [] (by simp [mapKeys])

/-- Witness for the amended claim C3 at a concrete input. -/
theorem cleanClaimsHeaders_amended_witness :
    (String.toList "roles" ∈ [String.toList "roles"])
    ∧ mapGet (claimsFold [] [String.toList "roles"]) (String.toList "roles")
        = some (claimToHeader [] (String.toList "roles")).1 :=
  ⟨by decide, (cleanClaimsHeaders_amended [] [String.toList "roles"]).2.1 _ (by decide)⟩

/-- Claim C2 (modelled from the spec): under the defaults-overlay
decoder's contract, a field the primary stage set to a non-zero value is
left untouched when the defaults document does not define the key, a
field changes only when the primary stage left it at its zero value and
the document defines the key, and such a field takes the document's
value; in particular, when the primary document set only the cookie name
and the defaults document defines both the cookie name and the cookie
max-age, the resolved cookie name is the primary one and the resolved
cookie max-age is the defaults one. -/
theorem setDefaults_overlay_contract :
    (∀ (α : Type) [DecidableEq α] (prim zero : α) (d : Option α),
        (d = none → overlayField prim zero d = prim)
        ∧ (overlayField prim zero d ≠ prim → prim = zero ∧ d ≠ none)
        ∧ (prim = zero → ∀ v, d = some v → overlayField prim zero d = v))
    ∧ (∀ (cfg : Config) (doc : DefaultsDoc) (ma : Int),
        cfg.Cookie.Name ≠ [] → cfg.Cookie.MaxAge = 0 → doc.cookieMaxAge = some ma →
        (setDefaults cfg doc).Cookie.Name = cfg.Cookie.Name
        ∧ (setDefaults cfg doc).Cookie.MaxAge = ma) := by
  constructor
  · intro α _ prim zero d
    refine ⟨?_, ?_, ?_⟩
    · intro hd
      subst hd
      unfold overlayField
      split <;> rfl
    · intro hne
      unfold overlayField at hne
      by_cases hz : prim = zero
      · rw [if_pos hz] at hne
        cases d with
        | none => exact absurd rfl hne
        | some v => exact ⟨hz, by simp⟩
      · rw [if_neg hz] at hne
        exact absurd rfl hne
    · intro hz v hd
      subst hd
      unfold overlayField
      rw [if_pos hz]
  · intro cfg doc ma hname hmax hdoc
    constructor
    · show overlayField cfg.Cookie.Name [] doc.cookieName = cfg.Cookie.Name
      unfold overlayField
      rw [if_neg hname]
    · show overlayField cfg.Cookie.MaxAge 0 doc.cookieMaxAge = ma
      unfold overlayField
      rw [if_pos hmax, hdoc]

/-- Witness for claim C2 at the concrete primary/defaults pair of the
spec's example. -/
theorem setDefaults_overlay_witness :
    (primaryCookieOnly.Cookie.Name ≠ [] ∧ primaryCookieOnly.Cookie.MaxAge = 0
      ∧ defaultsCookieDoc.cookieMaxAge = some 240)
    ∧ (setDefaults primaryCookieOnly defaultsCookieDoc).Cookie.Name
        = primaryCookieOnly.Cookie.Name
    ∧ (setDefaults primaryCookieOnly defaultsCookieDoc).Cookie.MaxAge = 240 :=
  ⟨⟨by decide, by decide, by decide⟩,
   (setDefaults_overlay_contract).2 primaryCookieOnly defaultsCookieDoc 240
     (by decide) (by decide) (by decide)⟩

/-- Claim C4: when the primary decode leaves the domain list empty and
the legacy decode produces a non-empty domain list, the resolved
configuration is the legacy candidate in its entirety — a wholesale
replacement, never a merge — and the migration warning naming the legacy
and the current key is emitted. -/
theorem parseConfig_legacy_wholesale (primary legacy : Config)
    (h1 : primary.Domains = []) (h2 : legacy.Domains ≠ []) :
    parseConfigMigrate primary legacy
      = (legacy, some (Branding.OldLCName, Branding.LCName)) := by
  unfold parseConfigMigrate
  rw [h1]
  have h3 : legacy.Domains.length ≠ 0 := by
    intro h
    exact h2 (List.length_eq_zero.mp h)
  simp [h3]

/-- Witness for claim C4 at a concrete primary/legacy pair. -/
theorem parseConfig_legacy_wholesale_witness :
    (zeroConfig.Domains = [] ∧ legacyDomainsConfig.Domains ≠ [])
    ∧ parseConfigMigrate zeroConfig legacyDomainsConfig
        = (legacyDomainsConfig, some (Branding.OldLCName, Branding.LCName)) :=
  ⟨⟨rfl, by decide⟩,
   parseConfig_legacy_wholesale zeroConfig legacyDomainsConfig rfl (by decide)⟩

/-- Claim C5: when neither the `vouch.domains` key nor the
`vouch.allowAllUsers` key is set in the raw document, `basicTest`
returns an error; when either of them is set, alone or together,
`basicTest` never returns the domains-or-allow-all-users error. -/
theorem basicTest_domains_allowall (oauthErr : Option GoStr)
    (isSet : GoStr → Bool) (cfg : Config) :
    (isSet allowAllUsersKey = false → isSet domainsKey = false →
        (basicTest oauthErr isSet cfg).isSome = true)
    ∧ ((isSet allowAllUsersKey = true ∨ isSet domainsKey = true) →
        basicTest oauthErr isSet cfg ≠ some CfgError.domainsOrAllowAllUnset) := by
  unfold basicTest
  cases oauthErr with
  | some e => exact ⟨fun _ _ => rfl, fun _ h => by simp at h⟩
  | none =>
    cases hfind : RequiredOptions.find? (fun opt => !isSet opt) with
    | some opt => exact ⟨fun _ _ => rfl, fun _ h => by simp at h⟩
    | none =>
      constructor
      · intro h1 h2
        have hcond : (!isSet allowAllUsersKey && !isSet domainsKey) = true := by
          simp [h1, h2]
        rw [if_pos hcond]
        rfl
      · intro hor
        have hcond : (!isSet allowAllUsersKey && !isSet domainsKey) = false := by
          rcases hor with h | h <;> simp [h]
        rw [if_neg (by simp [hcond])]
        repeat' split
        all_goals simp

/-- Witness for claim C5 at concrete raw-document views. -/
theorem basicTest_domains_allowall_witness :
    ((fun _ : GoStr => false) allowAllUsersKey = false
      ∧ (fun _ : GoStr => false) domainsKey = false)
    ∧ (basicTest none (fun _ => false) zeroConfig).isSome = true
    ∧ basicTest none (fun _ => true) zeroConfig ≠ some CfgError.domainsOrAllowAllUnset :=
  ⟨⟨rfl, rfl⟩,
   (basicTest_domains_allowall none (fun _ => false) zeroConfig).1 rfl rfl,
   (basicTest_domains_allowall none (fun _ => true) zeroConfig).2 (Or.inl rfl)⟩

/-- Claim C6: whenever the cookie max-age and the JWT max-age are
positive and the cookie max-age exceeds the JWT max-age, `basicTest`
returns an error, so resolution is fatal. -/
theorem basicTest_cookie_exceeds_jwt (oauthErr : Option GoStr)
    (isSet : GoStr → Bool) (cfg : Config)
    (h1 : 0 < cfg.Cookie.MaxAge) (h2 : 0 < cfg.JWT.MaxAge)
    (h3 : cfg.JWT.MaxAge < cfg.Cookie.MaxAge) :
    (basicTest oauthErr isSet cfg).isSome = true := by
  unfold basicTest
  cases oauthErr with
  | some e => rfl
  | none =>
    cases RequiredOptions.find? (fun opt => !isSet opt) with
    | some opt => rfl
    | none =>
      by_cases hc : (!isSet allowAllUsersKey && !isSet domainsKey) = true
      · rw [if_pos hc]
        rfl
      · rw [if_neg hc]
        rw [if_neg (by omega : ¬cfg.Cookie.MaxAge < 0)]
        rw [if_neg (by omega : ¬cfg.JWT.MaxAge ≤ 0)]
        rw [if_pos h3]
        rfl

/-- Witness for claim C6 at the concrete pair cookie max-age 100 and JWT
max-age 50. -/
theorem basicTest_cookie_exceeds_jwt_witness :
    (0 < cookieTooLargeConfig.Cookie.MaxAge ∧ 0 < cookieTooLargeConfig.JWT.MaxAge
      ∧ cookieTooLargeConfig.JWT.MaxAge < cookieTooLargeConfig.Cookie.MaxAge)
    ∧ (basicTest none (fun _ => true) cookieTooLargeConfig).isSome = true :=
  ⟨⟨by decide, by decide, by decide⟩,
   basicTest_cookie_exceeds_jwt none (fun _ => true) cookieTooLargeConfig
     (by decide) (by decide) (by decide)⟩
